import Mathlib

/-!
Shallow embedding of the token daily price history ingestion job from
`src/unnamed/part_000` and `src/backend/scenario_01.ts`.

Timestamps are unix epoch seconds (`Int`); one calendar day is 86400
seconds.  The `TokenDailyPriceHistoryUsd` table is a list of rows; the
surrogate `id` column plays no role in the logic and is omitted.  The
external price fetch (`apiCallToGetPrices`) is modelled by passing its
result (`prices`) directly to the handler, exactly as the source consumes
it.  Each prisma call in the source (`aggregate`, `deleteMany`,
`createMany`) is a separately awaited, auto-committed statement — the
source wraps them in no transaction — so the handler is embedded as the
sequential composition of those statements, and interleavings of two
invocations are compositions of the same statements in other orders.
-/

namespace TokenPriceJob

/-- One row of `TokenDailyPriceHistoryUsd` (surrogate id omitted; the
unique index is on `(token, timestamp)`). -/
structure Row where
  token : String
  timestamp : Int
  price : Int
deriving DecidableEq, Repr

/-- The table: a list of rows, in insertion order. -/
abbrev Db := List Row

/-- Maximum of a list of timestamps, `none` when empty (SQL `max`
aggregate over an empty selection is NULL). -/
def listMax : List Int → Option Int
  | [] => none
  | t :: rest =>
    match listMax rest with
    | none => some t
    | some v => some (max t v)

/-- `prisma.tokenDailyPriceHistoryUsd.aggregate({ _max: { timestamp: true },
where: { token } })`: the max stored timestamp for the token, `none`
(NULL) when the token has no rows. -/
def aggregateMax (db : Db) (token : String) : Option Int :=
  listMax ((db.filter fun r => r.token == token).map Row.timestamp)

/-- Modelled from the spec: `unixEpoch` is a helper not present under
`src/`; timestamps in this embedding are already unix epoch seconds, so
it is the identity. -/
def unixEpoch (t : Int) : Int := t

/-- Modelled from the spec: `addOneDay` is a helper not present under
`src/`; per the spec the acceptable next date is `d + 1 day`, i.e.
86400 seconds later on the same instant-of-day. -/
def addOneDay (t : Int) : Int := t + 86400

/-- The value `unixEpoch (addOneDay maxTimestamp)` that the handler
compares `prices[0].timestamp` against.  On a present watermark the
source computes `d + 1 day`.  On the NULL watermark of a token with no
rows the source calls `addOneDay(null)`, whose behaviour the repository
does not define; it is modelled by the parameter `znull` (`some v`: the
call yields epoch `v`; `none`: the comparison never succeeds, as with a
NaN result). -/
def nextTimestampTarget (znull : Option Int) : Option Int → Option Int
  | some d => some (unixEpoch (addOneDay d))
  | none => znull

/-- Step 3 of the handler: `nextTimestampEpoch !== unixEpoch(addOneDay(maxTimestamp))`
decides rejection; this predicate is the non-rejecting (accepting) case. -/
def passesValidation (znull : Option Int) (maxTimestamp : Option Int)
    (nextTimestampEpoch : Int) : Bool :=
  match nextTimestampTarget znull maxTimestamp with
  | some v => nextTimestampEpoch == v
  | none => false

/-- `prisma.tokenDailyPriceHistoryUsd.deleteMany({ where: { token } })`:
removes every row of the token, returning the remaining table and the
deleted count. -/
def deleteManyToken (db : Db) (token : String) : Db × Nat :=
  (db.filter fun r => !(r.token == token),
   (db.filter fun r => r.token == token).length)

/-- Whether the table already holds a row with this `(token, timestamp)`
key (the unique index of the schema). -/
def hasKeyTs (db : Db) (token : String) (ts : Int) : Bool :=
  db.any fun r => r.token == token && r.timestamp == ts

/-- Whether a batch of rows can be inserted into `db` without hitting the
`(token, timestamp)` unique index, counting collisions between batch rows
as well. -/
def conflictFree : Db → List Row → Bool
  | _, [] => true
  | db, r :: rest => !hasKeyTs db r.token r.timestamp && conflictFree (r :: db) rest

/-- `createMany` WITHOUT `skipDuplicates` (the call in the `handler` of
part_000 lines 98-106 and scenario_01 lines 176-184): a single INSERT
statement; if any row collides on `(token, timestamp)` the whole
statement raises a unique-constraint error and inserts nothing,
otherwise all rows are appended and counted. -/
def createMany (db : Db) (rows : List Row) : Except Unit (Db × Nat) :=
  if conflictFree db rows then .ok (db ++ rows, rows.length) else .error ()

/-- `createMany` WITH `skipDuplicates: true` (the variant in the first
scenario_01 listing, lines 58-67): rows whose `(token, timestamp)`
already exists are silently skipped, the rest are appended and counted. -/
def createManySkip (db : Db) (rows : List Row) : Db × Nat :=
  rows.foldl
    (fun acc r =>
      if hasKeyTs acc.1 r.token r.timestamp then acc else (acc.1 ++ [r], acc.2 + 1))
    (db, 0)

/-- `prices.map (fun p => { timestamp, price, token })`: one fetched
point turned into a row of the target token. -/
def rowOf (token : String) (p : Int × Int) : Row :=
  { token := token, timestamp := p.1, price := p.2 }

/-- Terminal outcomes of one handler invocation.  `rejected` is the
early `return` of step 3 (a normal completion with no writes);
`dupError` is a unique-constraint error escaping from `createMany`
(carrying the table as left by the statements that already committed);
`emptyBatch` models the `prices[0]` access throwing on an empty fetch
result (never reached below; the source assumes a non-empty batch). -/
inductive HandlerOutcome where
  | emptyBatch (db : Db)
  | rejected (db : Db)
  | ok (db : Db) (deleted created : Nat)
  | dupError (db : Db) (deleted : Nat)
deriving DecidableEq, Repr

/-- The table state after an invocation finishes (normally or by
raising). -/
def outDb : HandlerOutcome → Db
  | .emptyBatch db => db
  | .rejected db => db
  | .ok db _ _ => db
  | .dupError db _ => db

/-- `createdCount` of an invocation; 0 when nothing was inserted. -/
def insertedCount : HandlerOutcome → Nat
  | .ok _ _ c => c
  | _ => 0

/-- Step 4 of the handler: the optional `deleteMany` followed by the
`createMany` (no `skipDuplicates`, no transaction). -/
def commitPhase (db : Db) (token : String) (forceRefresh : Bool)
    (prices : List (Int × Int)) : HandlerOutcome :=
  let del := if forceRefresh then deleteManyToken db token else (db, 0)
  match createMany del.1 (prices.map (rowOf token)) with
  | .error _ => .dupError del.1 del.2
  | .ok (db2, c) => .ok db2 del.2 c

/-- The handler split at its read/write boundary: the watermark
`aggregate` runs against `dbRead` (the table when the query executes),
while the delete/insert statements run against `dbWrite` (the table when
the writes execute).  In a solo run the two coincide; under concurrency
another invocation may commit between the read and the writes, since no
transaction spans them in the source. -/
def handlerFrom (znull : Option Int) (dbRead dbWrite : Db) (token : String)
    (forceRefresh : Bool) (prices : List (Int × Int)) : HandlerOutcome :=
  match prices with
  | [] => .emptyBatch dbWrite
  | p :: _ =>
    if passesValidation znull (aggregateMax dbRead token) p.1 then
      commitPhase dbWrite token forceRefresh prices
    else .rejected dbWrite

/-- The `handler` of part_000 lines 77-108 executed solo: fetch result
`prices`, watermark aggregate, validation, optional purge, insert. -/
def handler (znull : Option Int) (db : Db) (token : String)
    (forceRefresh : Bool) (prices : List (Int × Int)) : HandlerOutcome :=
  handlerFrom znull db db token forceRefresh prices

/-- One interleaving of two concurrent invocations for the same token,
allowed because the source takes no lock and no transaction: job 1 is
`forceRefresh=false` with batch `prices1`, job 2 is `forceRefresh=true`
with batch `prices2`; both watermark reads execute against the initial
table, then job 2's `deleteMany`, then job 1's `createMany`, then
job 2's `createMany`.  Yields `some (finalDb, b)` when both validations
pass and job 1's insert succeeds, where `b` reports whether job 2's
`createMany` raised a unique-constraint error (leaving the table as job 1
left it). -/
def interleaveA (znull : Option Int) (db0 : Db) (token : String)
    (prices1 prices2 : List (Int × Int)) : Option (Db × Bool) :=
  match prices1, prices2 with
  | p1 :: _, p2 :: _ =>
    if passesValidation znull (aggregateMax db0 token) p1.1 &&
       passesValidation znull (aggregateMax db0 token) p2.1 then
      let s1 := (deleteManyToken db0 token).1
      match createMany s1 (prices1.map (rowOf token)) with
      | .error _ => none
      | .ok (s2, _) =>
        match createMany s2 (prices2.map (rowOf token)) with
        | .error _ => some (s2, true)
        | .ok (s3, _) => some (s3, false)
    else none
  | _, _ => none

/-- The dates stored for a token, in table order. -/
def datesOf (db : Db) (token : String) : List Int :=
  (db.filter fun r => r.token == token).map Row.timestamp

/-- Decidable check that stored dates form a contiguous daily run: every
date either has its predecessor day present or is the minimum.  Empty
lists pass (a key with no rows is vacuously contiguous). -/
def isContigDates (ts : List Int) : Bool :=
  ts.all fun t => ts.contains (t - 86400) || ts.all fun u => t ≤ u

/-- Strictly ascending timestamps, the order the adapter contract
promises for a fetched batch. -/
def ascendingB : List (Int × Int) → Bool
  | [] => true
  | [_] => true
  | p :: q :: rest => decide (p.1 < q.1) && ascendingB (q :: rest)

/-- Modelled from the spec: the truncation step of the idealized commit
engine (section 4.3 step 3, absent from the source handler) — the longest
contiguous daily run at the head of the batch starting exactly at the
acceptable date. -/
def contiguousTake : List (Int × Int) → Int → List (Int × Int)
  | [], _ => []
  | p :: rest, a => if p.1 == a then p :: contiguousTake rest (a + 86400) else []

/-- Modelled from the spec: the idealized serialized commit of sections
4.3 and 5, the reference point of the ordering guarantee — optional
purge, fresh watermark, truncation to the contiguous daily run from the
acceptable date (the batch head when the key has no rows), and a
duplicate-skipping insert. -/
def specCommit (db : Db) (token : String) (forceRefresh : Bool)
    (prices : List (Int × Int)) : Db :=
  let db1 := if forceRefresh then (deleteManyToken db token).1 else db
  let a :=
    match aggregateMax db1 token with
    | some d => addOneDay d
    | none =>
      match prices with
      | [] => 0
      | p :: _ => p.1
  (createManySkip db1 ((contiguousTake prices a).map (rowOf token))).1

/-- The calendar day (UTC) a timestamp falls on. -/
def dayOf (t : Int) : Int := Int.ediv t 86400

lemma listMax_ge_of_mem : ∀ {l : List Int} {a : Int}, a ∈ l →
    ∃ m, listMax l = some m ∧ a ≤ m := by
  intro l
  induction l with
  | nil => intro a ha; cases ha
  | cons t rest ih =>
    intro a ha
    rcases List.mem_cons.mp ha with h | h
    · subst h
      cases hr : listMax rest with
      | none => exact ⟨a, by simp [listMax, hr], le_refl a⟩
      | some v => exact ⟨max a v, by simp [listMax, hr], le_max_left a v⟩
    · obtain ⟨m, hm, hle⟩ := ih h
      exact ⟨max t m, by simp [listMax, hm], le_trans hle (le_max_right t m)⟩

lemma aggregateMax_ge {db : Db} {r : Row} {token : String}
    (hmem : r ∈ db) (htok : r.token = token) :
    ∃ m, aggregateMax db token = some m ∧ r.timestamp ≤ m := by
  apply listMax_ge_of_mem
  apply List.mem_map_of_mem Row.timestamp
  exact List.mem_filter.mpr ⟨hmem, by simp [htok]⟩

lemma hasKeyTs_iff {db : Db} {token : String} {ts : Int} :
    hasKeyTs db token ts = true ↔ ∃ r ∈ db, r.token = token ∧ r.timestamp = ts := by
  simp [hasKeyTs, List.any_eq_true, Bool.and_eq_true, beq_iff_eq]

lemma hasKeyTs_false {db : Db} {token : String} {ts : Int}
    (h : ∀ r ∈ db, r.token = token → r.timestamp ≠ ts) :
    hasKeyTs db token ts = false := by
  rw [Bool.eq_false_iff]
  intro hc
  obtain ⟨r, hr, htok, hts⟩ := hasKeyTs_iff.mp hc
  exact h r hr htok hts

lemma ascendingB_tail {p : Int × Int} {ps : List (Int × Int)}
    (h : ascendingB (p :: ps) = true) : ascendingB ps = true := by
  cases ps with
  | nil => rfl
  | cons q rest =>
    simp only [ascendingB, Bool.and_eq_true] at h
    exact h.2

lemma ascendingB_head_lt {p : Int × Int} {ps : List (Int × Int)}
    (h : ascendingB (p :: ps) = true) : ∀ q ∈ ps, p.1 < q.1 := by
  induction ps generalizing p with
  | nil => intro q hq; cases hq
  | cons q rest ih =>
    intro x hx
    simp only [ascendingB, Bool.and_eq_true, decide_eq_true_eq] at h
    obtain ⟨h1, h2⟩ := h
    rcases List.mem_cons.mp hx with rfl | hx2
    · exact h1
    · exact lt_trans h1 (ih h2 x hx2)

lemma conflictFree_map_of (token : String) :
    ∀ (ps : List (Int × Int)) (db : Db),
      ascendingB ps = true →
      (∀ r ∈ db, r.token = token → ∀ q ∈ ps, r.timestamp < q.1) →
      conflictFree db (ps.map (rowOf token)) = true := by
  intro ps
  induction ps with
  | nil => intro db _ _; rfl
  | cons p ps ih =>
    intro db hasc hlt
    have h1 : hasKeyTs db token p.1 = false := by
      apply hasKeyTs_false
      intro r hr htok
      have := hlt r hr htok p (List.mem_cons_self p ps)
      omega
    have h2 : conflictFree (rowOf token p :: db) (ps.map (rowOf token)) = true := by
      apply ih
      · exact ascendingB_tail hasc
      · intro r hr htokr q hq
        rcases List.mem_cons.mp hr with rfl | hr2
        · simpa [rowOf] using ascendingB_head_lt hasc q hq
        · exact hlt r hr2 htokr q (List.mem_cons_of_mem p hq)
    simp only [rowOf] at h2
    simp [conflictFree, rowOf, h1, h2]

/-- Claim C1 (code bug): the insert step was claimed never to raise a
duplicate-key error for overlapping commit attempts.  Evaluating the code
at two concurrent invocations for token `"t"` with the identical batch
`[(day1, 11)]` from the store `[("t", day0, 10)]` — both watermark reads
before either write — the first invocation commits the row and the second
invocation's `createMany` (called without `skipDuplicates`) raises the
unique-constraint error, which escapes the handler. -/
theorem C1_duplicate_key_error :
    handler none [⟨"t", 0, 10⟩] "t" false [(86400, 11)] =
      .ok [⟨"t", 0, 10⟩, ⟨"t", 86400, 11⟩] 0 1 ∧
    handlerFrom none [⟨"t", 0, 10⟩]
        (outDb (handler none [⟨"t", 0, 10⟩] "t" false [(86400, 11)]))
        "t" false [(86400, 11)] =
      .dupError [⟨"t", 0, 10⟩, ⟨"t", 86400, 11⟩] 0 := by
  decide

/-- Claim C2 (code bug): a forceRefresh commit was claimed atomic — all
old rows replaced by the new batch, or the old rows untouched.  The
source wraps `deleteMany` and `createMany` in no transaction, so in the
interleaving where the refresh job (batch `[(day1, 11), (day2, 12)]`)
deletes, a concurrent plain job inserts `("t", day1, 20)`, and the
refresh job's `createMany` then raises, the final table has the prior row
`("t", day0, 10)` deleted and not one row of the refresh batch inserted. -/
theorem C2_purge_without_insert :
    interleaveA none [⟨"t", 0, 10⟩] "t" [(86400, 20)] [(86400, 11), (172800, 12)] =
      some ([⟨"t", 86400, 20⟩], true) ∧
    (⟨"t", 0, 10⟩ : Row) ∉ ([⟨"t", 86400, 20⟩] : Db) ∧
    (⟨"t", 86400, 11⟩ : Row) ∉ ([⟨"t", 86400, 20⟩] : Db) ∧
    (⟨"t", 172800, 12⟩ : Row) ∉ ([⟨"t", 86400, 20⟩] : Db) := by
  decide

/-- Claim C3 (code bug): contiguity was claimed invariant under
successful commits.  The handler validates only `prices[0]` and inserts
the whole fetched batch with no contiguous-run truncation, so from the
contiguous store `[("t", day0, 10)]` a single successful (non-rejected)
commit of the batch `[(day1, 11), (day3, 12)]` leaves the dates
`{day0, day1, day3}` with a gap at day2. -/
theorem C3_gap_after_successful_commit :
    isContigDates (datesOf [⟨"t", 0, 10⟩] "t") = true ∧
    handler none [⟨"t", 0, 10⟩] "t" false [(86400, 11), (259200, 12)] =
      .ok [⟨"t", 0, 10⟩, ⟨"t", 86400, 11⟩, ⟨"t", 259200, 12⟩] 0 2 ∧
    isContigDates (datesOf [⟨"t", 0, 10⟩, ⟨"t", 86400, 11⟩, ⟨"t", 259200, 12⟩] "t") =
      false := by
  decide

/-- Claim C4 (code bug): the commit step was claimed to re-resolve the
watermark inside a transaction and insert only the longest contiguous
daily run of the batch from the acceptable date.  The source has no
transaction, reads the watermark once, and inserts the entire `prices`
array: from `[("t", day0, 10)]` with batch `[(day1, 11), (day3, 12)]`,
the contiguous run from the acceptable date day1 is just
`[("t", day1, 11)]`, yet the committed table also contains the
out-of-run row `("t", day3, 12)`. -/
theorem C4_full_batch_inserted_untruncated :
    (contiguousTake [(86400, 11), (259200, 12)] (addOneDay 0)).map (rowOf "t") =
      [⟨"t", 86400, 11⟩] ∧
    handler none [⟨"t", 0, 10⟩] "t" false [(86400, 11), (259200, 12)] =
      .ok [⟨"t", 0, 10⟩, ⟨"t", 86400, 11⟩, ⟨"t", 259200, 12⟩] 0 2 ∧
    (⟨"t", 259200, 12⟩ : Row) ∈
      outDb (handler none [⟨"t", 0, 10⟩] "t" false [(86400, 11), (259200, 12)]) := by
  decide

/-- Claim C8 (code bug): the final state after concurrent invocations was
claimed to equal some serialization of the accepted batches truncated to
contiguous coverage.  From `[("t", day0, 10), ("t", day1, 11)]`, a plain
job with batch `[(day2, 20)]` interleaved with a refresh job with batch
`[(day2, 30), (day3, 31)]` (both validations pass, refresh deletes, plain
inserts, refresh's insert raises) ends with the series holding only day2,
while the idealized serialized commit yields dates `{day2, day3}` in both
orders — day3 is present in every serialization and absent from the
actual final state. -/
theorem C8_not_serializable :
    interleaveA none [⟨"t", 0, 10⟩, ⟨"t", 86400, 11⟩] "t"
        [(172800, 20)] [(172800, 30), (259200, 31)] =
      some ([⟨"t", 172800, 20⟩], true) ∧
    datesOf
        (specCommit
          (specCommit [⟨"t", 0, 10⟩, ⟨"t", 86400, 11⟩] "t" false [(172800, 20)])
          "t" true [(172800, 30), (259200, 31)]) "t" = [172800, 259200] ∧
    datesOf
        (specCommit
          (specCommit [⟨"t", 0, 10⟩, ⟨"t", 86400, 11⟩] "t" true
            [(172800, 30), (259200, 31)])
          "t" false [(172800, 20)]) "t" = [172800, 259200] ∧
    (259200 : Int) ∉ datesOf ([⟨"t", 172800, 20⟩] : Db) "t" := by
  decide

/-- Claim C6, counterexample: the claim that a batch for a key with no
rows is accepted unconditionally (any starting date passes validation) is
false under every possible semantics of the undefined `addOneDay(null)`:
no value of `znull` makes every one-point batch pass — the handler always
runs the single equality test of step 3, which at most one starting epoch
can satisfy. -/
theorem C6_not_unconditional_cex :
    ¬ ∃ znull : Option Int, ∀ first price : Int,
        handler znull [] "t" false [(first, price)] ≠ .rejected [] := by
  rintro ⟨znull, h⟩
  cases znull with
  | none => exact h 0 0 (by decide)
  | some v =>
    apply h (v + 1) 0
    have hne : ((v + 1 : Int) == v) = false := by
      rw [beq_eq_false_iff_ne]
      omega
    simp [handler, handlerFrom, passesValidation, nextTimestampTarget,
      aggregateMax, listMax, hne]

/-- Claim C5: when the resolved watermark is `some d`, the batch is
accepted if and only if its first timestamp equals `d + 1 day`; under any
other relation the handler returns as a terminal (non-error) success with
zero writes — the table is returned unchanged by the `rejected` outcome. -/
theorem C5_watermark_validation (znull : Option Int) (db : Db) (token : String)
    (forceRefresh : Bool) (first price : Int) (rest : List (Int × Int)) (d : Int)
    (hmax : aggregateMax db token = some d) :
    (passesValidation znull (aggregateMax db token) first = true ↔
      first = addOneDay d) ∧
    (first ≠ addOneDay d →
      handler znull db token forceRefresh ((first, price) :: rest) = .rejected db) := by
  constructor
  · rw [hmax]
    simp [passesValidation, nextTimestampTarget, unixEpoch]
  · intro hne
    have hb : (first == unixEpoch (addOneDay d)) = false := by
      rw [beq_eq_false_iff_ne]
      simpa [unixEpoch] using hne
    simp [handler, handlerFrom, hmax, passesValidation, nextTimestampTarget, hb]

/-- Witness for C5 at a concrete input: store `[("t", day0, 10)]`,
watermark day0, batch first timestamp 200 (neither day1 nor any other
acceptable value): validation fails and the handler rejects with the
table unchanged. -/
theorem C5_watermark_validation_witness :
    (passesValidation none (aggregateMax [⟨"t", 0, 10⟩] "t") 200 = true ↔
      (200 : Int) = addOneDay 0) ∧
    ((200 : Int) ≠ addOneDay 0 →
      handler none [⟨"t", 0, 10⟩] "t" false ((200, 5) :: []) =
        .rejected [⟨"t", 0, 10⟩]) :=
  C5_watermark_validation none [⟨"t", 0, 10⟩] "t" false 200 5 [] 0 (by decide)

/-- Claim C6, amended: when the key has no rows (NULL watermark) the
handler still runs the single equality test of step 3 against the
implementation-defined value `unixEpoch(addOneDay(null))` (the model
parameter `znull`): the batch passes validation iff `znull` is exactly
its first timestamp, and otherwise the handler rejects with zero writes
— acceptance is not unconditional. -/
theorem C6_absent_validation (znull : Option Int) (db : Db) (token : String)
    (forceRefresh : Bool) (first price : Int) (rest : List (Int × Int))
    (hmax : aggregateMax db token = none) :
    (passesValidation znull (aggregateMax db token) first = true ↔
      znull = some first) ∧
    (znull ≠ some first →
      handler znull db token forceRefresh ((first, price) :: rest) = .rejected db) := by
  constructor
  · rw [hmax]
    cases znull with
    | none => simp [passesValidation, nextTimestampTarget]
    | some v =>
      simp only [passesValidation, nextTimestampTarget, beq_iff_eq, Option.some.injEq]
      exact eq_comm
  · intro hz
    have hb : passesValidation znull (aggregateMax db token) first = false := by
      rw [hmax]
      cases znull with
      | none => rfl
      | some v =>
        simp only [passesValidation, nextTimestampTarget, beq_eq_false_iff_ne]
        intro heq
        exact hz (by rw [heq])
    simp [handler, handlerFrom, hb]

/-- Witness for C6 at a concrete input: empty store, NaN-style null
semantics (`znull = none`): the batch starting at epoch 0 fails
validation and is rejected with the table unchanged. -/
theorem C6_absent_validation_witness :
    (passesValidation none (aggregateMax ([] : Db) "t") 0 = true ↔
      (none : Option Int) = some 0) ∧
    ((none : Option Int) ≠ some 0 →
      handler none ([] : Db) "t" false ((0, 0) :: []) = .rejected ([] : Db)) :=
  C6_absent_validation none [] "t" false 0 0 [] (by decide)

/-- Claim C7: running the handler for the same
`(token, forceRefresh = false, batch)` twice sequentially from any store
leaves the store after the second run identical to the store after the
first, and the second run inserts 0 rows.  A rejected or erroring first
run changes nothing and repeats identically; an accepted first run
inserts the batch, so the fresh watermark is at least the batch's first
timestamp and the second run fails validation and performs no writes. -/
theorem C7_idempotent_replay (znull : Option Int) (db : Db) (token : String)
    (prices : List (Int × Int)) :
    outDb (handler znull (outDb (handler znull db token false prices))
        token false prices) =
      outDb (handler znull db token false prices) ∧
    insertedCount (handler znull (outDb (handler znull db token false prices))
        token false prices) = 0 := by
  match prices with
  | [] => simp [handler, handlerFrom, outDb, insertedCount]
  | (first, price) :: rest =>
    cases hv : passesValidation znull (aggregateMax db token) first with
    | false => simp [handler, handlerFrom, hv, outDb, insertedCount]
    | true =>
      cases hcf : conflictFree db (rowOf token (first, price) :: rest.map (rowOf token)) with
      | false =>
        simp [handler, handlerFrom, commitPhase, createMany, hv, hcf, outDb,
          insertedCount]
      | true =>
        have hmem : rowOf token (first, price) ∈
            db ++ rowOf token (first, price) :: rest.map (rowOf token) := by
          simp
        obtain ⟨m2, hm2, hle⟩ :=
          aggregateMax_ge hmem (show (rowOf token (first, price)).token = token from rfl)
        have hfirst : first ≤ m2 := by simpa [rowOf] using hle
        have hv2 : passesValidation znull
            (aggregateMax (db ++ rowOf token (first, price) :: rest.map (rowOf token)) token)
            first = false := by
          rw [hm2]
          simp only [passesValidation, nextTimestampTarget, unixEpoch, addOneDay,
            beq_eq_false_iff_ne]
          omega
        simp [handler, handlerFrom, commitPhase, createMany, hv, hcf, hv2, outDb,
          insertedCount]

/-- Claim C9: a `forceRefresh = true` invocation that passes validation
(its batch, strictly ascending as fetched, starts at the old watermark
plus one day) deletes every row of the key and inserts exactly the
fetched batch: afterwards every stored row of the key is dated at
`old watermark + 1 day` or later — every point at or before the old
watermark is permanently lost and the series restarts at
`old watermark + 1 day`. -/
theorem C9_refresh_data_loss (znull : Option Int) (db : Db) (token : String)
    (d price : Int) (rest : List (Int × Int))
    (hmax : aggregateMax db token = some d)
    (hasc : ascendingB ((addOneDay d, price) :: rest) = true) :
    handler znull db token true ((addOneDay d, price) :: rest) =
      .ok ((deleteManyToken db token).1 ++
            ((addOneDay d, price) :: rest).map (rowOf token))
          (deleteManyToken db token).2 (rest.length + 1) ∧
    (∀ r ∈ (deleteManyToken db token).1 ++
        ((addOneDay d, price) :: rest).map (rowOf token),
      r.token = token → addOneDay d ≤ r.timestamp) ∧
    (∀ t : Int, t ≤ d →
      hasKeyTs ((deleteManyToken db token).1 ++
          ((addOneDay d, price) :: rest).map (rowOf token)) token t = false) := by
  have hnotok : ∀ r ∈ (deleteManyToken db token).1, r.token = token → False := by
    intro r hr htok
    have hmemf := (List.mem_filter.mp hr).2
    simp [htok] at hmemf
  have hge : ∀ r ∈ (deleteManyToken db token).1 ++
      ((addOneDay d, price) :: rest).map (rowOf token),
      r.token = token → addOneDay d ≤ r.timestamp := by
    intro r hr htok
    rcases List.mem_append.mp hr with h | h
    · exact absurd htok (fun hh => hnotok r h hh)
    · rcases List.mem_map.mp h with ⟨q, hq, rfl⟩
      rcases List.mem_cons.mp hq with rfl | hq2
      · simp [rowOf]
      · have := ascendingB_head_lt hasc q hq2
        simp only [rowOf] at this ⊢
        omega
  refine ⟨?_, hge, ?_⟩
  · have hval : passesValidation znull (aggregateMax db token) (addOneDay d) = true := by
      rw [hmax]
      simp [passesValidation, nextTimestampTarget, unixEpoch]
    have hcf : conflictFree (deleteManyToken db token).1
        (((addOneDay d, price) :: rest).map (rowOf token)) = true := by
      apply conflictFree_map_of token _ _ hasc
      intro r hr htok
      exact absurd htok (fun hh => hnotok r hr hh)
    simp only [List.map_cons] at hcf
    simp [handler, handlerFrom, hval, commitPhase, createMany, hcf]
  · intro t ht
    apply hasKeyTs_false
    intro r hr htok hts
    have := hge r hr htok
    rw [hts] at this
    simp only [addOneDay] at this
    omega

/-- Witness for C9 at a concrete input: store `[("t", day0, 10)]`,
refresh batch `[(day1, 11)]`: the old row is deleted, exactly the batch
is inserted, every remaining row of the key is dated at day1 or later,
and no date at or before day0 survives. -/
theorem C9_refresh_data_loss_witness :
    handler none [⟨"t", 0, 10⟩] "t" true ((addOneDay 0, 11) :: []) =
      .ok ((deleteManyToken [⟨"t", 0, 10⟩] "t").1 ++
            ((addOneDay 0, 11) :: []).map (rowOf "t"))
          (deleteManyToken [⟨"t", 0, 10⟩] "t").2 (List.length ([] : List (Int × Int)) + 1) ∧
    (∀ r ∈ (deleteManyToken [⟨"t", 0, 10⟩] "t").1 ++
        ((addOneDay 0, 11) :: []).map (rowOf "t"),
      r.token = "t" → addOneDay 0 ≤ r.timestamp) ∧
    (∀ t : Int, t ≤ 0 →
      hasKeyTs ((deleteManyToken [⟨"t", 0, 10⟩] "t").1 ++
          ((addOneDay 0, 11) :: []).map (rowOf "t")) "t" t = false) :=
  C9_refresh_data_loss none [⟨"t", 0, 10⟩] "t" 0 11 [] (by decide) (by decide)

/-- Claim C10: validation compares exact unix epoch timestamps with
strict numeric equality, not calendar days: a batch whose first point
falls on the correct next calendar day but whose epoch differs from
`unixEpoch(addOneDay(maxTimestamp))` (by as little as one second) is
rejected and nothing is written. -/
theorem C10_strict_epoch_equality (znull : Option Int) (db : Db) (token : String)
    (forceRefresh : Bool) (d first price : Int) (rest : List (Int × Int))
    (hmax : aggregateMax db token = some d)
    (hday : dayOf first = dayOf (addOneDay d))
    (hne : first ≠ addOneDay d) :
    handler znull db token forceRefresh ((first, price) :: rest) = .rejected db := by
  have hb : (first == unixEpoch (addOneDay d)) = false := by
    rw [beq_eq_false_iff_ne]
    simpa [unixEpoch] using hne
  simp [handler, handlerFrom, hmax, passesValidation, nextTimestampTarget, hb]

/-- Witness for C10 at a concrete input: watermark at epoch 0 (midnight
day0); the batch point at epoch 86401 falls on the same UTC calendar day
as the acceptable epoch 86400 but differs by one second, and the handler
rejects it leaving the table unchanged. -/
theorem C10_strict_epoch_equality_witness :
    handler none [⟨"t", 0, 10⟩] "t" false ((86401, 7) :: []) =
      .rejected [⟨"t", 0, 10⟩] :=
  C10_strict_epoch_equality none [⟨"t", 0, 10⟩] "t" false 0 86401 7 []
    (by decide) (by decide) (by decide)

end TokenPriceJob
